import Mathlib

/-
Verification of the score-based diffusion trainer and sampler in
src/diffusion.py against its specification.

Modelling conventions:
* Machine floats are modelled as real numbers.
* JAX tensors are modelled as a shape (list of extents) together with a
  flat row-major data function.
* The splittable JAX PRNG is modelled symbolically.  Under the
  partitionable Threefry split (the JAX default), the i-th sub-key of
  jax.random.split(key, num) is the cipher output of counter i under the
  parent key and does not depend on num (the prefix property
  split(key, m) == split(key, n)[:m] for m <= n), so a sub-key is
  modelled by the pair (parent, i) alone.  The actual random draws
  (normal and uniform bits) are external to the repository and are
  abstracted as an arbitrary family of draw functions.
-/

noncomputable section

/-- A JAX PRNG key, modelled symbolically: either a root seed
(jax.random.PRNGKey) or the key derived from a parent key at counter i,
which is what the i-th sub-key of a partitionable Threefry split is. -/
inductive Key where
  | prng (seed : ℕ) : Key
  | derive (parent : Key) (i : ℕ) : Key
deriving DecidableEq

/-- jax.random.split(key, num)[i] under the partitionable Threefry
implementation: the i-th sub-key is the cipher output of counter i under
the parent key, independent of num (the prefix property).  The num
argument is kept to mirror the call sites of the source. -/
def splitKey (k : Key) (_num i : ℕ) : Key := Key.derive k i

/-- Depth of a key in the split tree. -/
def keyDepth : Key → ℕ
  | .prng _ => 0
  | .derive p _ => keyDepth p + 1

/-- The random draws backing the JAX PRNG, abstracted: `normal key shape`
gives the flat data of a standard normal tensor of the given shape, and
`uniform key maxval i` is the i-th entry of a uniform draw in
[0, maxval). -/
structure Draws where
  normal : Key → List ℕ → ℕ → ℝ
  uniform : Key → ℝ → ℕ → ℝ

/-- A JAX array: a shape together with flat row-major data. -/
structure Tensor where
  shape : List ℕ
  data : ℕ → ℝ

/-- The all-zero rank-0 tensor, used as an out-of-range list default. -/
def Tensor.empty : Tensor := ⟨[], fun _ => 0⟩

/-- Number of elements of a tensor. -/
def Tensor.numel (x : Tensor) : ℕ := x.shape.prod

/-- Elementwise addition (shapes agree in every use below). -/
def Tensor.add (x y : Tensor) : Tensor := ⟨x.shape, fun n => x.data n + y.data n⟩

/-- Multiplication by a scalar. -/
def Tensor.scale (x : Tensor) (c : ℝ) : Tensor := ⟨x.shape, fun n => c * x.data n⟩

/-- Division by a scalar. -/
def Tensor.divScalar (x : Tensor) (c : ℝ) : Tensor := ⟨x.shape, fun n => x.data n / c⟩

/-- Elementwise map. -/
def Tensor.map (f : ℝ → ℝ) (x : Tensor) : Tensor := ⟨x.shape, fun n => f (x.data n)⟩

/-- Row-major reshape (jnp.reshape / einops.rearrange keeps flat data). -/
def Tensor.reshape (x : Tensor) (s : List ℕ) : Tensor := ⟨s, x.data⟩

/-- jnp.concatenate along axis 0 of two tensors whose trailing dimensions
agree (every use below satisfies this; jnp raises otherwise). -/
def Tensor.concat0 (a b : Tensor) : Tensor :=
  ⟨(a.shape.headD 0 + b.shape.headD 0) :: a.shape.tail,
   fun n => if n < a.shape.headD 0 * a.shape.tail.prod then a.data n
            else b.data (n - a.shape.headD 0 * a.shape.tail.prod)⟩

/-- Transpose of a rank-2 tensor (einops.rearrange "c p -> p c"). -/
def Tensor.transpose2 (x : Tensor) : Tensor :=
  match x.shape with
  | [a, b] => ⟨[b, a], fun n => x.data ((n % a) * b + n / a)⟩
  | _ => x

/-- Mean over all elements (jnp.mean). -/
def tensorMean (x : Tensor) : ℝ :=
  (∑ i ∈ Finset.range x.numel, x.data i) / (x.numel : ℝ)

/-- The noise schedule of the program: int_beta = lambda t: t
(src/diffusion.py line 159). -/
def int_beta : ℝ → ℝ := fun t => t

/-- The loss weighting of the program: weight = lambda t: 1 - exp(-int_beta(t))
(src/diffusion.py line 160). -/
def weight : ℝ → ℝ := fun t => 1 - Real.exp (-(int_beta t))

/-- The variance used inside single_loss_fn for a general schedule ib:
var = maximum(1 - exp(-ib(t)), 1e-5) (src/diffusion.py line 78). -/
def varianceOf (ib : ℝ → ℝ) (t : ℝ) : ℝ :=
  max (1 - Real.exp (-(ib t))) 1e-5

/-- single_loss_fn of src/diffusion.py (lines 76-83): noise the data point
to time t, run the model, and return the weighted mean squared score
residual.  The Gaussian noise drawn from the key is D.normal. -/
def single_loss_fn (D : Draws) (model : ℝ → Tensor → Tensor) (w ib : ℝ → ℝ)
    (data : Tensor) (t : ℝ) (key : Key) : ℝ :=
  let mean := Tensor.scale data (Real.exp (-(0.5) * ib t))
  let var := varianceOf ib t
  let std := Real.sqrt var
  let noise : Tensor := ⟨data.shape, D.normal key data.shape⟩
  let y := Tensor.add mean (Tensor.scale noise std)
  let pred := model t y
  w t * tensorMean (Tensor.map (fun a => a ^ 2) (Tensor.add pred (Tensor.divScalar noise std)))

/-- The first sub-key of batch_loss_fn: tkey, used for time sampling
(src/diffusion.py line 88). -/
def tkeyOf (key : Key) : Key := splitKey key 2 0

/-- The second sub-key of batch_loss_fn: losskey, the parent of the
per-example noise keys (src/diffusion.py lines 88-89). -/
def losskeyOf (key : Key) : Key := splitKey key 2 1

/-- The per-example noise keys: losskey = jax.random.split(losskey, batch_size)
(src/diffusion.py line 89). -/
def noiseKeysOf (key : Key) (B : ℕ) : List Key :=
  (List.range B).map (fun i => splitKey (losskeyOf key) B i)

/-- The training times of batch_loss_fn (src/diffusion.py lines 90-91):
a vector of batch_size uniform draws in [0, t1/batch_size), the i-th
shifted by i * t1/batch_size. -/
def timesOf (D : Draws) (key : Key) (B : ℕ) (t1 : ℝ) (i : ℕ) : ℝ :=
  D.uniform (tkeyOf key) (t1 / (B : ℝ)) i + (t1 / (B : ℝ)) * (i : ℝ)

/-- batch_loss_fn of src/diffusion.py (lines 86-94): split the key into a
time key and per-example noise keys, sample stratified times, apply
single_loss_fn to every (data, time, key) triple, and take the mean. -/
def batch_loss_fn (D : Draws) (model : ℝ → Tensor → Tensor) (w ib : ℝ → ℝ)
    (data : List Tensor) (t1 : ℝ) (key : Key) : ℝ :=
  ((List.range data.length).map (fun i =>
    single_loss_fn D model w ib (data.getD i Tensor.empty)
      (timesOf D key data.length t1 i)
      (splitKey (losskeyOf key) data.length i))).sum / (data.length : ℝ)

/-- make_step of src/diffusion.py (lines 111-118).  The model is an
abstract parameter bundle M applied through net; automatic
differentiation (eqx.filter_value_and_grad) and the optax optimizer are
abstracted as the oracle functions gradAt, optimUpdate and applyUpdates.
The returned key is jax.random.split(key, 1)[0] (line 117). -/
def make_step {M G U S : Type} (D : Draws) (net : M → ℝ → Tensor → Tensor)
    (gradAt : (M → ℝ) → M → G) (optimUpdate : G → S → U × S)
    (applyUpdates : M → U → M)
    (model : M) (w ib : ℝ → ℝ) (data : List Tensor) (t1 : ℝ) (key : Key)
    (opt_state : S) : ℝ × M × Key × S :=
  (batch_loss_fn D (net model) w ib data t1 key,
   applyUpdates model
     (optimUpdate (gradAt (fun m => batch_loss_fn D (net m) w ib data t1 key) model)
       opt_state).1,
   splitKey key 1 0,
   (optimUpdate (gradAt (fun m => batch_loss_fn D (net m) w ib data t1 key) model)
     opt_state).2)

/-- Parameters of eqx.nn.Conv2d with a square kernel: weight w indexed
(out-channel, in-channel, row, column) and bias b. -/
structure Conv2d where
  inCh : ℕ
  outCh : ℕ
  k : ℕ
  s : ℕ
  w : ℕ → ℕ → ℕ → ℕ → ℝ
  b : ℕ → ℝ

/-- Parameters of eqx.nn.ConvTranspose2d with a square kernel: weight w
indexed (in-channel, out-channel, row, column) and bias b. -/
structure ConvT2d where
  inCh : ℕ
  outCh : ℕ
  k : ℕ
  s : ℕ
  w : ℕ → ℕ → ℕ → ℕ → ℝ
  b : ℕ → ℝ

/-- Parameters of eqx.nn.MLP with depth 1: Linear(inSize, width), relu,
Linear(width, outSize). -/
structure MLP where
  inSize : ℕ
  outSize : ℕ
  width : ℕ
  W1 : ℕ → ℕ → ℝ
  b1 : ℕ → ℝ
  W2 : ℕ → ℕ → ℝ
  b2 : ℕ → ℝ

/-- Parameters of eqx.nn.LayerNorm over a given shape, with elementwise
scale g and shift b. -/
structure LayerNorm where
  shape : List ℕ
  g : ℕ → ℝ
  b : ℕ → ℝ
  eps : ℝ

/-- Valid (no padding) strided 2d convolution on a [inCh, H, W] tensor,
producing [outCh, (H-k)/s+1, (W-k)/s+1]. -/
def Conv2d.apply (P : Conv2d) (x : Tensor) : Tensor :=
  let H := x.shape.getD 1 0
  let W := x.shape.getD 2 0
  let Ho := (H - P.k) / P.s + 1
  let Wo := (W - P.k) / P.s + 1
  ⟨[P.outCh, Ho, Wo], fun n =>
    let o := n / (Ho * Wo)
    let r := n % (Ho * Wo)
    let i := r / Wo
    let j := r % Wo
    P.b o + ∑ c ∈ Finset.range P.inCh, ∑ a ∈ Finset.range P.k, ∑ e ∈ Finset.range P.k,
      P.w o c a e * x.data (c * (H * W) + (i * P.s + a) * W + (j * P.s + e))⟩

/-- Transposed 2d convolution (stride s, kernel k, no padding) on a
[inCh, Hin, Win] tensor, producing [outCh, (Hin-1)*s+k, (Win-1)*s+k]. -/
def ConvT2d.apply (Q : ConvT2d) (x : Tensor) : Tensor :=
  let Hin := x.shape.getD 1 0
  let Win := x.shape.getD 2 0
  let Ho := (Hin - 1) * Q.s + Q.k
  let Wo := (Win - 1) * Q.s + Q.k
  ⟨[Q.outCh, Ho, Wo], fun n =>
    let o := n / (Ho * Wo)
    let r := n % (Ho * Wo)
    let u := r / Wo
    let v := r % Wo
    Q.b o + ∑ c ∈ Finset.range Q.inCh, ∑ i ∈ Finset.range Hin, ∑ j ∈ Finset.range Win,
      ∑ a ∈ Finset.range Q.k, ∑ e ∈ Finset.range Q.k,
        (if u = i * Q.s + a ∧ v = j * Q.s + e then Q.w c o a e * x.data (c * (Hin * Win) + i * Win + j) else 0)⟩

/-- Apply a depth-1 MLP to a vector: Linear, relu, Linear. -/
def MLP.applyVec (m : MLP) (v : ℕ → ℝ) (o : ℕ) : ℝ :=
  m.b2 o + ∑ hh ∈ Finset.range m.width,
    m.W2 o hh * max 0 (m.b1 hh + ∑ i ∈ Finset.range m.inSize, m.W1 hh i * v i)

/-- jax.vmap of an MLP over the leading axis of a rank-2 [c, p] tensor:
the MLP is applied to every row, giving shape [c, outSize]. -/
def MLP.vmapRows (m : MLP) (x : Tensor) : Tensor :=
  ⟨[x.shape.getD 0 0, m.outSize], fun n =>
    m.applyVec (fun i => x.data ((n / m.outSize) * x.shape.getD 1 0 + i)) (n % m.outSize)⟩

/-- eqx.nn.LayerNorm applied to a tensor: normalize over all elements,
then scale and shift elementwise. -/
def LayerNorm.apply (ln : LayerNorm) (x : Tensor) : Tensor :=
  let N := x.shape.prod
  let mu := (∑ i ∈ Finset.range N, x.data i) / (N : ℝ)
  let sq := (∑ i ∈ Finset.range N, (x.data i - mu) ^ 2) / (N : ℝ)
  ⟨x.shape, fun n => ln.g n * ((x.data n - mu) / Real.sqrt (sq + ln.eps)) + ln.b n⟩

/-- MixerBlock of src/diffusion.py (lines 14-34). -/
structure MixerBlock where
  patch_mixer : MLP
  hidden_mixer : MLP
  norm1 : LayerNorm
  norm2 : LayerNorm

/-- MixerBlock.__call__ (src/diffusion.py lines 29-34): residual patch
mixing, transpose, residual hidden mixing, transpose back. -/
def MixerBlock.call (blk : MixerBlock) (y : Tensor) : Tensor :=
  let y1 := Tensor.add y (MLP.vmapRows blk.patch_mixer (LayerNorm.apply blk.norm1 y))
  let y2 := Tensor.transpose2 y1
  let y3 := Tensor.add y2 (MLP.vmapRows blk.hidden_mixer (LayerNorm.apply blk.norm2 y2))
  Tensor.transpose2 y3

/-- Mixer2d of src/diffusion.py (lines 36-74). -/
structure Mixer2d where
  conv_in : Conv2d
  conv_out : ConvT2d
  blocks : List MixerBlock
  norm : LayerNorm
  t1 : ℝ

/-- Weight initializers of the equinox layers, abstracted (the drawn
values are irrelevant to the verified properties): given the layer sizes
and a key, produce the weight and bias data. -/
structure Init where
  conv2d : ℕ → ℕ → ℕ → Key → (ℕ → ℕ → ℕ → ℕ → ℝ) × (ℕ → ℝ)
  convT2d : ℕ → ℕ → ℕ → Key → (ℕ → ℕ → ℕ → ℕ → ℝ) × (ℕ → ℝ)
  linear : ℕ → ℕ → Key → (ℕ → ℕ → ℝ) × (ℕ → ℝ)

/-- eqx.nn.MLP(in, out, width, depth=1, key): two Linear layers, one key
each. -/
def MLP.init (I : Init) (inSize outSize width : ℕ) (key : Key) : MLP :=
  ⟨inSize, outSize, width,
   (I.linear inSize width (splitKey key 2 0)).1,
   (I.linear inSize width (splitKey key 2 0)).2,
   (I.linear width outSize (splitKey key 2 1)).1,
   (I.linear width outSize (splitKey key 2 1)).2⟩

/-- eqx.nn.LayerNorm(shape): unit scale, zero shift, eps = 1e-5. -/
def LayerNorm.init (shape : List ℕ) : LayerNorm :=
  ⟨shape, fun _ => 1, fun _ => 0, 1e-5⟩

/-- MixerBlock.__init__ (src/diffusion.py lines 20-28). -/
def MixerBlock.init (I : Init) (num_patches hidden_size mix_patch_size mix_hidden_size : ℕ)
    (key : Key) : MixerBlock :=
  ⟨MLP.init I num_patches num_patches mix_patch_size (splitKey key 2 0),
   MLP.init I hidden_size hidden_size mix_hidden_size (splitKey key 2 1),
   LayerNorm.init [hidden_size, num_patches],
   LayerNorm.init [num_patches, hidden_size]⟩

/-- Mixer2d.__init__ (src/diffusion.py lines 43-60): assert that height
and width are divisible by the patch size (fail-fast: None models the
AssertionError), then build the patch embedding, the mixer blocks and
the patch un-embedding. -/
def Mixer2d.init (I : Init) (img_size : ℕ × ℕ × ℕ)
    (patch_size hidden_size mix_patch_size mix_hidden_size num_blocks : ℕ)
    (t1 : ℝ) (key : Key) : Option Mixer2d :=
  if img_size.2.1 % patch_size = 0 ∧ img_size.2.2 % patch_size = 0 then
    some
      { conv_in :=
          { inCh := img_size.1 + 1, outCh := hidden_size, k := patch_size, s := patch_size,
            w := (I.conv2d (img_size.1 + 1) hidden_size patch_size
                    (splitKey key (2 + num_blocks) 0)).1,
            b := (I.conv2d (img_size.1 + 1) hidden_size patch_size
                    (splitKey key (2 + num_blocks) 0)).2 },
        conv_out :=
          { inCh := hidden_size, outCh := img_size.1, k := patch_size, s := patch_size,
            w := (I.convT2d hidden_size img_size.1 patch_size
                    (splitKey key (2 + num_blocks) 1)).1,
            b := (I.convT2d hidden_size img_size.1 patch_size
                    (splitKey key (2 + num_blocks) 1)).2 },
        blocks := (List.range num_blocks).map (fun j =>
          MixerBlock.init I ((img_size.2.1 / patch_size) * (img_size.2.2 / patch_size))
            hidden_size mix_patch_size mix_hidden_size (splitKey key (2 + num_blocks) (2 + j))),
        norm := LayerNorm.init
          [hidden_size, (img_size.2.1 / patch_size) * (img_size.2.2 / patch_size)],
        t1 := t1 }
  else none

/-- Mixer2d.__call__ (src/diffusion.py lines 62-74): concatenate the
normalized time as an extra channel, patch-embed, run the mixer blocks
on the flattened patches, normalize, and patch-unembed back to the
original channel count and resolution. -/
def Mixer2d.call (m : Mixer2d) (t : ℝ) (y : Tensor) : Tensor :=
  let tn := t / m.t1
  let height := y.shape.getD 1 0
  let width := y.shape.getD 2 0
  let tmap : Tensor := ⟨[1, height, width], fun _ => tn⟩
  let y1 := Tensor.concat0 y tmap
  let y2 := Conv2d.apply m.conv_in y1
  let patch_height := y2.shape.getD 1 0
  let patch_width := y2.shape.getD 2 0
  let y3 := Tensor.reshape y2 [y2.shape.getD 0 0, patch_height * patch_width]
  let y4 := m.blocks.foldl (fun acc blk => MixerBlock.call blk acc) y3
  let y5 := LayerNorm.apply m.norm y4
  let y6 := Tensor.reshape y5 [y5.shape.getD 0 0, patch_height, patch_width]
  ConvT2d.apply m.conv_out y6

/-- Shape action of a rank-2 transpose. -/
def tshape : List ℕ → List ℕ
  | [a, b] => [b, a]
  | s => s

/-- The diffrax default step budget (max_steps of diffeqsolve). -/
def maxSteps : ℕ := 4096

/-- Nodes of the order-5 Tsitouras tableau used by diffrax Tsit5. -/
def tsitc2 : ℝ := 0.161

/-- Tsitouras tableau node c3. -/
def tsitc3 : ℝ := 0.327

/-- Tsitouras tableau node c4. -/
def tsitc4 : ℝ := 0.9

/-- Tsitouras tableau node c5. -/
def tsitc5 : ℝ := 0.9800255409045097

/-- Tsitouras tableau entry a21. -/
def tsita21 : ℝ := 0.161

/-- Tsitouras tableau entry a31. -/
def tsita31 : ℝ := -0.008480655492356989

/-- Tsitouras tableau entry a32. -/
def tsita32 : ℝ := 0.335480655492357

/-- Tsitouras tableau entry a41. -/
def tsita41 : ℝ := 2.8971530571054935

/-- Tsitouras tableau entry a42. -/
def tsita42 : ℝ := -6.359448489975075

/-- Tsitouras tableau entry a43. -/
def tsita43 : ℝ := 4.3622954328695815

/-- Tsitouras tableau entry a51. -/
def tsita51 : ℝ := 5.325864828439257

/-- Tsitouras tableau entry a52. -/
def tsita52 : ℝ := -11.748883564062828

/-- Tsitouras tableau entry a53. -/
def tsita53 : ℝ := 7.4955393428898365

/-- Tsitouras tableau entry a54. -/
def tsita54 : ℝ := -0.09249506636175525

/-- Tsitouras tableau entry a61. -/
def tsita61 : ℝ := 5.86145544294642

/-- Tsitouras tableau entry a62. -/
def tsita62 : ℝ := -12.92096931784711

/-- Tsitouras tableau entry a63. -/
def tsita63 : ℝ := 8.159367898576159

/-- Tsitouras tableau entry a64. -/
def tsita64 : ℝ := -0.071584973281401

/-- Tsitouras tableau entry a65. -/
def tsita65 : ℝ := -0.028269050394068383

/-- Tsitouras solution weight b1. -/
def tsitb1 : ℝ := 0.09646076681806523

/-- Tsitouras solution weight b2. -/
def tsitb2 : ℝ := 0.01

/-- Tsitouras solution weight b3. -/
def tsitb3 : ℝ := 0.4798896504144996

/-- Tsitouras solution weight b4. -/
def tsitb4 : ℝ := 1.379008574103742

/-- Tsitouras solution weight b5. -/
def tsitb5 : ℝ := -3.290069515436081

/-- Tsitouras solution weight b6. -/
def tsitb6 : ℝ := 2.324710524099775

/-- One explicit step of the order-5 Tsitouras Runge-Kutta scheme
(diffrax Tsit5; the seventh stage has zero solution weight and is the
FSAL evaluation, so it does not enter the update). -/
def tsit5Step (f : ℝ → Tensor → Tensor) (t h : ℝ) (y : Tensor) : Tensor :=
  let k1 := f t y
  let k2 := f (t + tsitc2 * h) (Tensor.add y (Tensor.scale (Tensor.scale k1 tsita21) h))
  let k3 := f (t + tsitc3 * h)
    (Tensor.add y (Tensor.scale (Tensor.add (Tensor.scale k1 tsita31) (Tensor.scale k2 tsita32)) h))
  let k4 := f (t + tsitc4 * h)
    (Tensor.add y (Tensor.scale (Tensor.add (Tensor.add (Tensor.scale k1 tsita41)
      (Tensor.scale k2 tsita42)) (Tensor.scale k3 tsita43)) h))
  let k5 := f (t + tsitc5 * h)
    (Tensor.add y (Tensor.scale (Tensor.add (Tensor.add (Tensor.add (Tensor.scale k1 tsita51)
      (Tensor.scale k2 tsita52)) (Tensor.scale k3 tsita53)) (Tensor.scale k4 tsita54)) h))
  let k6 := f (t + h)
    (Tensor.add y (Tensor.scale (Tensor.add (Tensor.add (Tensor.add (Tensor.add
      (Tensor.scale k1 tsita61) (Tensor.scale k2 tsita62)) (Tensor.scale k3 tsita63))
      (Tensor.scale k4 tsita64)) (Tensor.scale k5 tsita65)) h))
  Tensor.add y (Tensor.scale (Tensor.add (Tensor.add (Tensor.add (Tensor.add (Tensor.add
    (Tensor.scale k1 tsitb1) (Tensor.scale k2 tsitb2)) (Tensor.scale k3 tsitb3))
    (Tensor.scale k4 tsitb4)) (Tensor.scale k5 tsitb5)) (Tensor.scale k6 tsitb6)) h)

/-- The fixed-step reverse-time integration loop of dx.diffeqsolve with a
constant step controller: starting at time t, repeatedly step by -dt0
(clipped at the terminal time 0) until time 0 is reached or the step
budget is exhausted; return the final time and state. -/
def solveBack (f : ℝ → Tensor → Tensor) (dt0 : ℝ) : ℕ → ℝ → Tensor → ℝ × Tensor
  | 0, t, y => (t, y)
  | n + 1, t, y =>
    if t ≤ 0 then (t, y)
    else solveBack f dt0 n (max (t - dt0) 0) (tsit5Step f t (max (t - dt0) 0 - t) y)

/-- single_sample_fn of src/diffusion.py (lines 97-109): draw y1 from a
standard normal at t = t1, integrate the probability-flow ODE with drift
-0.5 * beta(t) * (y + model(t, y)) backward from t1 to 0 with the Tsit5
solver and initial step -dt0, and return the state at time 0.  beta is
obtained by forward-mode differentiation of int_beta (jax.jvp with unit
tangent), modelled by the mathematical derivative.  none models the
diffrax error raised when the step budget is exhausted before reaching
the terminal time. -/
def single_sample_fn (D : Draws) (model : ℝ → Tensor → Tensor) (ib : ℝ → ℝ)
    (data_shape : List ℕ) (dt0 t1 : ℝ) (key : Key) : Option Tensor :=
  let drift := fun (t : ℝ) (y : Tensor) =>
    Tensor.scale (Tensor.add y (model t y)) (-(0.5) * deriv ib t)
  let y1 : Tensor := ⟨data_shape, D.normal key data_shape⟩
  let r := solveBack drift dt0 maxSteps t1 y1
  if r.1 ≤ 0 then some r.2 else none

/-- Draw functions whose uniform component always returns 0.5 and whose
normal component always returns 0, used to instantiate theorems at
concrete inputs. -/
def constDraws : Draws := ⟨fun _ _ _ => 0, fun _ _ _ => 0.5⟩

/-- Draw functions whose uniform component returns 0 at index 0 and 1 at
every other index, a concrete valid draw for batch size 2 and t1 = 10. -/
def cexDraws : Draws := ⟨fun _ _ _ => 0, fun _ _ i => if i = 0 then 0 else 1⟩

/-- Trivial weight initializers (all weights zero), used to instantiate
theorems at concrete inputs. -/
def trivInit : Init :=
  ⟨fun _ _ _ _ => (fun _ _ _ _ => 0, fun _ => 0),
   fun _ _ _ _ => (fun _ _ _ _ => 0, fun _ => 0),
   fun _ _ _ => (fun _ _ => 0, fun _ => 0)⟩

/-- A junk network used only as an Option default. -/
def junkNet : Mixer2d :=
  ⟨⟨0, 0, 0, 0, fun _ _ _ _ => 0, fun _ => 0⟩,
   ⟨0, 0, 0, 0, fun _ _ _ _ => 0, fun _ => 0⟩,
   [], ⟨[], fun _ => 0, fun _ => 0, 0⟩, 1⟩

/-- A concrete successfully constructed network: one channel, 2 by 2
image, patch size 1, one block. -/
def trivNet : Mixer2d :=
  (Mixer2d.init trivInit (1, 2, 2) 1 1 1 1 1 1 (Key.prng 0)).getD junkNet

/-- A concrete probe image of shape [1, 2, 2]. -/
def probeT : Tensor := ⟨[1, 2, 2], fun _ => 0⟩

/-- Splitting a key never returns the key itself (the sub-keys are fresh
cipher outputs of the parent). -/
theorem key_ne_derive (k : Key) (i : ℕ) : k ≠ Key.derive k i := by
  intro h
  have hd := congrArg keyDepth h
  simp [keyDepth] at hd

/-- Sum of a mapped range as a Finset sum. -/
theorem list_sum_range_map (f : ℕ → ℝ) (n : ℕ) :
    ((List.range n).map f).sum = ∑ i ∈ Finset.range n, f i := by
  induction n with
  | zero => simp
  | succ n ih =>
    rw [List.range_succ, List.map_append, List.sum_append, Finset.sum_range_succ, ih]
    simp

@[simp] theorem Tensor.add_shape (x y : Tensor) : (Tensor.add x y).shape = x.shape := rfl

@[simp] theorem Tensor.scale_shape (x : Tensor) (c : ℝ) : (Tensor.scale x c).shape = x.shape := rfl

@[simp] theorem Tensor.map_shape (f : ℝ → ℝ) (x : Tensor) : (Tensor.map f x).shape = x.shape := rfl

@[simp] theorem Tensor.reshape_shape (x : Tensor) (s : List ℕ) : (Tensor.reshape x s).shape = s := rfl

@[simp] theorem Tensor.concat0_shape (a b : Tensor) :
    (Tensor.concat0 a b).shape = (a.shape.headD 0 + b.shape.headD 0) :: a.shape.tail := rfl

@[simp] theorem conv2d_out_shape (P : Conv2d) (x : Tensor) :
    (Conv2d.apply P x).shape =
      [P.outCh, (x.shape.getD 1 0 - P.k) / P.s + 1, (x.shape.getD 2 0 - P.k) / P.s + 1] := rfl

@[simp] theorem convT2d_out_shape (Q : ConvT2d) (x : Tensor) :
    (ConvT2d.apply Q x).shape =
      [Q.outCh, (x.shape.getD 1 0 - 1) * Q.s + Q.k, (x.shape.getD 2 0 - 1) * Q.s + Q.k] := rfl

@[simp] theorem MLP.vmapRows_shape (m : MLP) (x : Tensor) :
    (MLP.vmapRows m x).shape = [x.shape.getD 0 0, m.outSize] := rfl

@[simp] theorem layerNorm_out_shape (ln : LayerNorm) (x : Tensor) :
    (LayerNorm.apply ln x).shape = x.shape := rfl

@[simp] theorem Tensor.transpose2_shape (x : Tensor) :
    (Tensor.transpose2 x).shape = tshape x.shape := by
  obtain ⟨s, d⟩ := x
  rcases s with _ | ⟨a, _ | ⟨b, _ | _⟩⟩ <;> rfl

@[simp] theorem tshape_tshape (s : List ℕ) : tshape (tshape s) = s := by
  rcases s with _ | ⟨a, _ | ⟨b, _ | _⟩⟩ <;> rfl

@[simp] theorem MixerBlock.call_shape (blk : MixerBlock) (y : Tensor) :
    (MixerBlock.call blk y).shape = y.shape := by
  simp [MixerBlock.call]

@[simp] theorem blocks_foldl_shape (bs : List MixerBlock) (y : Tensor) :
    (bs.foldl (fun acc blk => MixerBlock.call blk acc) y).shape = y.shape := by
  induction bs generalizing y with
  | nil => rfl
  | cons b bs ih => rw [List.foldl_cons, ih, MixerBlock.call_shape]

/-- Output height of the strided patch embedding on a divisible extent. -/
theorem patch_embed_extent (h p : ℕ) (hd : p ∣ h) (h0 : 0 < h) :
    (h - p) / p + 1 = h / p := by
  obtain ⟨m, rfl⟩ := hd
  have hp : 0 < p := by
    rcases Nat.eq_zero_or_pos p with h' | h'
    · subst h'; simp at h0
    · exact h'
  have hm : 0 < m := by
    rcases Nat.eq_zero_or_pos m with h'' | h''
    · subst h''; simp at h0
    · exact h''
  have : p * m - p = p * (m - 1) := by
    rw [Nat.mul_sub]
    simp
  rw [this, Nat.mul_div_cancel_left _ hp, Nat.mul_div_cancel_left _ hp]
  omega

/-- Output height of the transposed-convolution un-embedding on a
divisible extent. -/
theorem patch_unembed_extent (h p : ℕ) (hd : p ∣ h) (h0 : 0 < h) :
    (h / p - 1) * p + p = h := by
  obtain ⟨m, rfl⟩ := hd
  have hp : 0 < p := by
    rcases Nat.eq_zero_or_pos p with h' | h'
    · subst h'; simp at h0
    · exact h'
  have hm : 0 < m := by
    rcases Nat.eq_zero_or_pos m with h'' | h''
    · subst h''; simp at h0
    · exact h''
  rw [Nat.mul_div_cancel_left _ hp]
  calc (m - 1) * p + p = (m - 1 + 1) * p := by ring
  _ = m * p := by rw [Nat.sub_add_cancel hm]
  _ = p * m := by ring

/-- The fixed-step reverse-time loop reaches the terminal time 0 exactly
whenever the step budget covers the interval. -/
theorem solveBack_reaches (f : ℝ → Tensor → Tensor) (dt0 : ℝ) (hdt : 0 < dt0) :
    ∀ (n : ℕ) (t : ℝ) (y : Tensor), 0 ≤ t → t ≤ dt0 * (n : ℝ) →
      (solveBack f dt0 n t y).1 = 0 := by
  intro n
  induction n with
  | zero =>
    intro t y h0 h1
    simp only [Nat.cast_zero, mul_zero] at h1
    simp [solveBack]
    linarith
  | succ n ih =>
    intro t y h0 h1
    rw [solveBack]
    split_ifs with hle
    · exact le_antisymm hle h0
    · apply ih
      · exact le_max_right _ _
      · have hcast : ((n + 1 : ℕ) : ℝ) = (n : ℝ) + 1 := by push_cast; ring
        rw [hcast] at h1
        have hn : (0 : ℝ) ≤ dt0 * (n : ℝ) := by positivity
        apply max_le _ hn
        nlinarith

/-- C7: the noise schedule satisfies int_beta(0) = 0, int_beta is
monotonically non-decreasing, and the variance used in the loss,
max(1 - exp(-int_beta(t)), 1e-5), is strictly positive for every t. -/
theorem noise_schedule_props :
    int_beta 0 = 0 ∧ Monotone int_beta ∧ ∀ t : ℝ, 0 < varianceOf int_beta t :=
  ⟨rfl, fun _ _ hab => hab,
   fun _ => lt_of_lt_of_le (by norm_num) (le_max_right _ _)⟩

/-- C8 counterexample: at the valid time t = 0 the loss weighting
weight(0) = 1 - exp(-int_beta(0)) equals 0, so it is not strictly
positive there. -/
theorem weight_zero_not_pos : weight 0 = 0 ∧ ¬ (0 < weight 0) := by
  have h : weight 0 = 0 := by simp [weight, int_beta]
  exact ⟨h, by rw [h]; exact lt_irrefl 0⟩

/-- C8 amended: the loss weighting weight(t) = 1 - exp(-int_beta(t)) is
strictly positive for every strictly positive time t (and vanishes at
t = 0). -/
theorem weight_pos_of_pos (t : ℝ) (ht : 0 < t) : 0 < weight t := by
  simp only [weight, int_beta]
  have h1 : Real.exp (-t) < 1 := by
    have h2 := Real.exp_lt_exp.mpr (neg_lt_zero.mpr ht)
    rwa [Real.exp_zero] at h2
  linarith

/-- C8 witness: the amended positivity at the concrete time t = 1. -/
theorem weight_pos_of_pos_check : 0 < weight 1 := weight_pos_of_pos 1 (by norm_num)

/-- C2: single_loss_fn computes mean = x * exp(-0.5 * int_beta(t)),
variance = max(1 - exp(-int_beta(t)), 1e-5), the noised sample
y = mean + sqrt(variance) * noise, the prediction pred = model(t, y),
and returns exactly weight(t) * mean over elements of
(pred + noise / sqrt(variance))^2. -/
theorem single_loss_fn_formula (D : Draws) (model : ℝ → Tensor → Tensor) (w ib : ℝ → ℝ)
    (data : Tensor) (t : ℝ) (key : Key) :
    single_loss_fn D model w ib data t key =
      w t * tensorMean (Tensor.map (fun a => a ^ 2)
        (Tensor.add
          (model t (Tensor.add (Tensor.scale data (Real.exp (-(0.5) * ib t)))
            (Tensor.scale ⟨data.shape, D.normal key data.shape⟩
              (Real.sqrt (max (1 - Real.exp (-(ib t))) 1e-5)))))
          (Tensor.divScalar ⟨data.shape, D.normal key data.shape⟩
            (Real.sqrt (max (1 - Real.exp (-(ib t))) 1e-5))))) := rfl

/-- C1 counterexample: batch_loss_fn does not draw one single shared
uniform offset.  With batch size 2 and t1 = 10, the concrete per-element
uniform draw (0, 1) is valid (each entry lies in [0, t1/2 = 5)), yet no
single offset u satisfies time_i = u + i * t1/2 for both i. -/
theorem batch_times_not_single_offset :
    (∀ i < 2, 0 ≤ cexDraws.uniform (tkeyOf (Key.prng 0)) ((10 : ℝ) / 2) i ∧
      cexDraws.uniform (tkeyOf (Key.prng 0)) ((10 : ℝ) / 2) i < (10 : ℝ) / 2) ∧
    ¬ ∃ u : ℝ, ∀ i < 2, timesOf cexDraws (Key.prng 0) 2 10 i = u + ((10 : ℝ) / 2) * (i : ℝ) := by
  constructor
  · intro i hi
    interval_cases i <;> norm_num [cexDraws]
  · rintro ⟨u, hu⟩
    have h0 := hu 0 (by norm_num)
    have h1 := hu 1 (by norm_num)
    norm_num [timesOf, cexDraws] at h0 h1
    linarith

/-- C1 amended: batch_loss_fn samples its B training times by drawing B
independent uniform offsets u_i in [0, t1/B), one per batch element, and
setting the i-th time to u_i + i * t1/B; in particular, with B = 4,
t1 = 10 and every offset equal to 0.5, the times are exactly
0.5, 3.0, 5.5 and 8.0. -/
theorem batch_times_stratified (D : Draws) (key : Key)
    (hu : ∀ (x : ℝ) (i : ℕ), D.uniform (tkeyOf key) x i = 0.5) :
    (∀ (B : ℕ) (t1 : ℝ) (i : ℕ),
      timesOf D key B t1 i = D.uniform (tkeyOf key) (t1 / (B : ℝ)) i + (t1 / (B : ℝ)) * (i : ℝ)) ∧
    (timesOf D key 4 10 0 = 0.5 ∧ timesOf D key 4 10 1 = 3 ∧
     timesOf D key 4 10 2 = 5.5 ∧ timesOf D key 4 10 3 = 8) := by
  refine ⟨fun B t1 i => rfl, ?_, ?_, ?_, ?_⟩ <;> norm_num [timesOf, hu]

/-- C1 witness: the amended statement at the concrete draw family whose
uniform component always returns 0.5. -/
theorem batch_times_stratified_check :
    timesOf constDraws (Key.prng 0) 4 10 0 = 0.5 ∧ timesOf constDraws (Key.prng 0) 4 10 1 = 3 ∧
    timesOf constDraws (Key.prng 0) 4 10 2 = 5.5 ∧ timesOf constDraws (Key.prng 0) 4 10 3 = 8 :=
  (batch_times_stratified constDraws (Key.prng 0) (fun _ _ => rfl)).2

/-- C10: with B >= 1, t1 > 0 and a valid uniform draw, the i-th time
produced by batch_loss_fn lies in its own stratification bin
[i * t1/B, (i+1) * t1/B), and hence in [0, t1). -/
theorem batch_times_in_bins (D : Draws) (key : Key) (B : ℕ) (t1 : ℝ) (i : ℕ)
    (hB : 0 < B) (hi : i < B) (ht1 : 0 < t1)
    (h0 : 0 ≤ D.uniform (tkeyOf key) (t1 / (B : ℝ)) i)
    (h1 : D.uniform (tkeyOf key) (t1 / (B : ℝ)) i < t1 / (B : ℝ)) :
    ((i : ℝ) * (t1 / (B : ℝ)) ≤ timesOf D key B t1 i ∧
      timesOf D key B t1 i < ((i : ℝ) + 1) * (t1 / (B : ℝ))) ∧
    (0 ≤ timesOf D key B t1 i ∧ timesOf D key B t1 i < t1) := by
  have hBR : (0 : ℝ) < (B : ℝ) := by exact_mod_cast hB
  have hs : (0 : ℝ) < t1 / (B : ℝ) := by positivity
  have hiB : (i : ℝ) + 1 ≤ (B : ℝ) := by exact_mod_cast hi
  have hiN : (0 : ℝ) ≤ (i : ℝ) := Nat.cast_nonneg i
  have hcomm : (i : ℝ) * (t1 / (B : ℝ)) = (t1 / (B : ℝ)) * (i : ℝ) := mul_comm _ _
  have hsi : (0 : ℝ) ≤ (t1 / (B : ℝ)) * (i : ℝ) := by positivity
  have hend : ((i : ℝ) + 1) * (t1 / (B : ℝ)) ≤ t1 := by
    have h2 : ((i : ℝ) + 1) * (t1 / (B : ℝ)) ≤ (B : ℝ) * (t1 / (B : ℝ)) :=
      mul_le_mul_of_nonneg_right hiB hs.le
    have h3 : (B : ℝ) * (t1 / (B : ℝ)) = t1 := by field_simp
    linarith
  unfold timesOf
  refine ⟨⟨by linarith, by nlinarith⟩, by linarith, by nlinarith⟩

/-- C10 witness: the bin membership at the concrete instance B = 4,
t1 = 10, i = 1 with every uniform draw equal to 0.5. -/
theorem batch_times_in_bins_check :
    (0 : ℝ) ≤ timesOf constDraws (Key.prng 0) 4 10 1 ∧
      timesOf constDraws (Key.prng 0) 4 10 1 < 10 :=
  (batch_times_in_bins constDraws (Key.prng 0) 4 10 1 (by norm_num) (by norm_num) (by norm_num)
    (by norm_num [constDraws]) (by norm_num [constDraws])).2

/-- C4: batch_loss_fn derives exactly one sub-key per batch element (the
list of per-example noise keys has length B and no duplicates), applies
single_loss_fn to each (data_i, t_i, key_i) triple independently, and
returns the arithmetic mean of the per-example losses. -/
theorem batch_loss_fn_mean_of_independent (D : Draws) (model : ℝ → Tensor → Tensor)
    (w ib : ℝ → ℝ) (data : List Tensor) (t1 : ℝ) (key : Key) :
    ((noiseKeysOf key data.length).length = data.length ∧
      (noiseKeysOf key data.length).Nodup) ∧
    batch_loss_fn D model w ib data t1 key =
      (∑ i ∈ Finset.range data.length,
        single_loss_fn D model w ib (data.getD i Tensor.empty)
          (timesOf D key data.length t1 i)
          (splitKey (losskeyOf key) data.length i)) / (data.length : ℝ) := by
  refine ⟨⟨by simp [noiseKeysOf], ?_⟩, ?_⟩
  · exact (List.nodup_range data.length).map (fun a b hab => by simpa [splitKey] using hab)
  · unfold batch_loss_fn
    rw [list_sum_range_map]

/-- C6: the claim fails on the code.  Under the partitionable Threefry
split, jax.random.split(key, 1)[0] equals jax.random.split(key, 2)[0]
(both are the cipher output of counter 0 under key), so for every step
input key the new key returned by make_step (line 117) is exactly the
time-sampling key tkey consumed by jax.random.uniform inside
batch_loss_fn (lines 88 and 90) of the same step: the same key value is
consumed twice across consecutive steps. -/
theorem make_step_key_reused {M G U S : Type} (D : Draws) (net : M → ℝ → Tensor → Tensor)
    (gradAt : (M → ℝ) → M → G) (optimUpdate : G → S → U × S) (applyUpdates : M → U → M)
    (model : M) (w ib : ℝ → ℝ) (data : List Tensor) (t1 : ℝ) (key : Key) (opt_state : S) :
    (make_step D net gradAt optimUpdate applyUpdates model w ib data t1 key
      opt_state).2.2.1 = tkeyOf key := rfl

/-- C9: constructing a Mixer2d succeeds exactly when both the image
height and the image width are divisible by the patch size; otherwise
the construction fails fast (the assertion raises). -/
theorem mixer2d_init_divisibility (I : Init) (c h w p hs mps mhs nb : ℕ) (t1 : ℝ) (key : Key) :
    (Mixer2d.init I (c, h, w) p hs mps mhs nb t1 key).isSome ↔
      (h % p = 0 ∧ w % p = 0) := by
  unfold Mixer2d.init
  split_ifs with hcond
  · simpa using hcond
  · simpa using hcond

/-- C5: for every time scalar t and every image tensor y whose shape
matches the declared img_size of a successfully constructed network
(height and width divisible by the patch size), the Mixer2d forward pass
returns a tensor of exactly the shape of y (the time channel is dropped
in the output). -/
theorem mixer2d_call_shape (I : Init) (c h w p hs mps mhs nb : ℕ) (t1v : ℝ) (key : Key)
    (net : Mixer2d) (t : ℝ) (y : Tensor)
    (hinit : Mixer2d.init I (c, h, w) p hs mps mhs nb t1v key = some net)
    (hy : y.shape = [c, h, w]) (hh : 0 < h) (hw : 0 < w) :
    (Mixer2d.call net t y).shape = y.shape := by
  unfold Mixer2d.init at hinit
  split_ifs at hinit with hcond
  · rw [Option.some.injEq] at hinit
    subst hinit
    have hmh : h % p = 0 := hcond.1
    have hmw : w % p = 0 := hcond.2
    have hdh : p ∣ h := Nat.dvd_of_mod_eq_zero hmh
    have hdw : p ∣ w := Nat.dvd_of_mod_eq_zero hmw
    have e1 := patch_embed_extent h p hdh hh
    have e2 := patch_embed_extent w p hdw hw
    have e3 := patch_unembed_extent h p hdh hh
    have e4 := patch_unembed_extent w p hdw hw
    simp [Mixer2d.call, hy, e1, e2, e3, e4]

/-- C5 witness: the forward pass of the concrete network (1 channel,
2 by 2 image, patch size 1) keeps the probe shape [1, 2, 2]. -/
theorem mixer2d_call_shape_check : (Mixer2d.call trivNet 0 probeT).shape = probeT.shape :=
  mixer2d_call_shape trivInit 1 2 2 1 1 1 1 1 1 (Key.prng 0) trivNet 0 probeT rfl rfl
    (by norm_num) (by norm_num)

/-- C3: single_sample_fn integrates the ODE with drift
-0.5 * beta(t) * (y + model(t, y)), beta being the derivative of
int_beta (the jvp of a differentiable schedule), backward from t1 with
steps of -dt0 under the Tsit5 scheme; whenever the step budget covers
the interval it returns exactly the integrated state, and the final
integration time is exactly 0. -/
theorem single_sample_fn_reverse_ode (D : Draws) (model : ℝ → Tensor → Tensor)
    (ib β : ℝ → ℝ) (data_shape : List ℕ) (dt0 t1 : ℝ) (key : Key)
    (hβ : ∀ s : ℝ, HasDerivAt ib (β s) s)
    (hdt : 0 < dt0) (ht1 : 0 ≤ t1) (hfuel : t1 ≤ dt0 * (maxSteps : ℝ)) :
    single_sample_fn D model ib data_shape dt0 t1 key =
      some (solveBack (fun s y => Tensor.scale (Tensor.add y (model s y)) (-(0.5) * β s))
        dt0 maxSteps t1 ⟨data_shape, D.normal key data_shape⟩).2 ∧
    (solveBack (fun s y => Tensor.scale (Tensor.add y (model s y)) (-(0.5) * β s))
      dt0 maxSteps t1 ⟨data_shape, D.normal key data_shape⟩).1 = 0 := by
  have hfun : (fun (s : ℝ) (y : Tensor) =>
      Tensor.scale (Tensor.add y (model s y)) (-(0.5) * deriv ib s)) =
      (fun s y => Tensor.scale (Tensor.add y (model s y)) (-(0.5) * β s)) := by
    funext s y
    rw [(hβ s).deriv]
  have hterm := solveBack_reaches
    (fun s y => Tensor.scale (Tensor.add y (model s y)) (-(0.5) * β s))
    dt0 hdt maxSteps t1 ⟨data_shape, D.normal key data_shape⟩ ht1 hfuel
  refine ⟨?_, hterm⟩
  simp only [single_sample_fn]
  rw [hfun, if_pos (le_of_eq hterm)]

/-- C3 witness: the reverse integration at the concrete instance
(identity model, identity schedule with derivative 1, dt0 = 1, t1 = 1)
terminates exactly at time 0. -/
theorem single_sample_fn_reverse_ode_check :
    (solveBack (fun _ (y : Tensor) => Tensor.scale (Tensor.add y y) (-(0.5) * 1))
      1 maxSteps 1 ⟨[1], fun _ => (0 : ℝ)⟩).1 = 0 :=
  (single_sample_fn_reverse_ode constDraws (fun _ v => v) (fun s => s) (fun _ => 1) [1] 1 1
    (Key.prng 0) (fun s => hasDerivAt_id s) (by norm_num) (by norm_num)
    (by norm_num [maxSteps])).2

end

